import Mathlib

/-!
Verification of the CIDER2018-ex equation-of-state tutorial material.

The repository consists of two Jupyter notebooks that call the `pytheos`
equation-of-state library (`eos.bm3_p`, `eos.constq_pth`,
`pytheos.scales.objs.MGEOS.cal_v`, and an `lmfit`-based fitter).  The
computational kernel itself is not part of the repository sources, so the
definitions below are modelled from the specification's component design
(Birch-Murnaghan third-order static pressure, Debye/constant-q thermal
pressure, bracketed root finding for the volume inversion, and
inverse-variance weighting for the fitter).  All machine floating point is
modelled over the real numbers.
-/

noncomputable section

open intervalIntegral

/-- Modelled from the spec: the gas constant R = 8.314462618 J/(mol K)
used by the Debye internal-energy formula (the pytheos kernel holding this
constant is not under src/). -/
def Rgas : ℝ := 8.314462618

/-- Modelled from the spec: the Birch-Murnaghan third-order static pressure
`eos.bm3_p` called by the notebook, P = (3 K0/2) (f^(7/3) - f^(5/3))
(1 - xi (f^(2/3) - 1)) with f = V0/V and xi = (3/4)(4 - K0').  The pytheos
implementation is not under src/. -/
def bm3_p (v v0 k0 k0p : ℝ) : ℝ :=
  3 * k0 / 2 * ((v0 / v) ^ ((7 : ℝ) / 3) - (v0 / v) ^ ((5 : ℝ) / 3)) *
    (1 - 3 / 4 * (4 - k0p) * ((v0 / v) ^ ((2 : ℝ) / 3) - 1))

/-- Typed errors of the specification's error-handling design. -/
inductive EOSError where
  | domainError
  | convergenceError
  deriving DecidableEq

/-- Modelled from the spec: the static EOS evaluator with the spec's domain
checks (v > 0, v0 > 0, k0 > 0); nonphysical inputs are rejected with
DomainError instead of being clamped.  The pytheos implementation is not
under src/. -/
def bm3_p_checked (v v0 k0 k0p : ℝ) : Except EOSError ℝ :=
  if v ≤ 0 ∨ v0 ≤ 0 ∨ k0 ≤ 0 then Except.error EOSError.domainError
  else Except.ok (bm3_p v v0 k0 k0p)

/-- The integrand of the Debye internal-energy integral,
xi^3 / (exp xi - 1).  (Real division by zero is zero, which matches the
removable singularity value at xi = 0.) -/
def debyeIntegrand (t : ℝ) : ℝ := t ^ 3 / (Real.exp t - 1)

/-- The Debye integral D(x) = ∫_0^x xi^3 / (exp xi - 1) d xi. -/
def debye_int (x : ℝ) : ℝ := ∫ t in (0 : ℝ)..x, debyeIntegrand t

/-- Modelled from the spec: the Debye internal energy
E(theta, T) = 9 n R T / x^3 * ∫_0^x xi^3/(exp xi - 1) d xi with x = theta/T,
and E = 0 at T = 0 (explicit edge case).  The pytheos implementation is not
under src/. -/
def E_debye (theta temp n : ℝ) : ℝ :=
  if temp = 0 then 0
  else 9 * n * Rgas * temp / (theta / temp) ^ (3 : ℕ) * debye_int (theta / temp)

/-- Modelled from the spec: unit-normalization factor converting J/mol of
internal energy per Angstrom^3 of cell volume into GPa, for z formula units
per cell (the exact constants are left open by the spec; a consistent
Angstrom^3 + GPa + J/mol system is fixed here: z / N_A * 1e30 * 1e-9). -/
def econv (z : ℝ) : ℝ := z * 10 ^ (21 : ℕ) / 6.02214076e23

/-- Modelled from the spec: the constant-q Mie-Gruneisen-Debye thermal
pressure `eos.constq_pth` called by the notebook,
ΔP_th = gamma(V)/V * (E(theta0, T) - E(theta0, 300)) with
gamma(V) = gamma0 (V/V0)^q and reference temperature T0 = 300 K.  The
pytheos implementation is not under src/. -/
def constq_pth (v temp v0 gamma0 q theta0 n z : ℝ) : ℝ :=
  gamma0 * (v / v0) ^ q / v * (E_debye theta0 temp n - E_debye theta0 300 n) * econv z

/-- Modelled from the spec: the thermal EOS evaluator with the spec's domain
checks (v > 0, v0 > 0, T ≥ 0). -/
def constq_pth_checked (v temp v0 gamma0 q theta0 n z : ℝ) : Except EOSError ℝ :=
  if v ≤ 0 ∨ v0 ≤ 0 ∨ temp < 0 then Except.error EOSError.domainError
  else Except.ok (constq_pth v temp v0 gamma0 q theta0 n z)

/-- Parameter set of a combined static + thermal Mie-Gruneisen EOS
(the `params_st`/`params_th` ordered dictionaries of the notebook). -/
structure EOSParams where
  v0 : ℝ
  k0 : ℝ
  k0p : ℝ
  gamma0 : ℝ
  q : ℝ
  theta0 : ℝ
  n : ℝ
  z : ℝ

/-- Modelled from the spec: the MGEOS forward model, total pressure
P(V, T) = static pressure + thermal pressure. -/
def mgeos_p (ps : EOSParams) (v temp : ℝ) : ℝ :=
  bm3_p v ps.v0 ps.k0 ps.k0p +
    constq_pth v temp ps.v0 ps.gamma0 ps.q ps.theta0 ps.n ps.z

/-- Modelled from the spec: bisection on a bracket [lo, hi] for an
antitone function f, searching for f v = target, with a bounded iteration
count (fuel). -/
def bisect (f : ℝ → ℝ) (target lo hi : ℝ) : ℕ → ℝ
  | 0 => (lo + hi) / 2
  | fuel + 1 =>
    if target < f ((lo + hi) / 2) then bisect f target ((lo + hi) / 2) hi fuel
    else bisect f target lo ((lo + hi) / 2) fuel

/-- Modelled from the spec: `MGEOS.cal_v`, the numerical inversion solving
pressure(V, T) = P for V by a bracketed root finder over [lo, hi] with a
bounded iteration count.  The pytheos implementation is not under src/. -/
def cal_v (ps : EOSParams) (p temp lo hi : ℝ) (fuel : ℕ) : ℝ :=
  bisect (fun v => mgeos_p ps v temp) p lo hi fuel

/-- Modelled from the spec: `MGEOS.cal_v` with the spec's convergence
checks: the bracket must contain a sign change of the residual (for the
antitone pressure: f hi ≤ p ≤ f lo), and the final pressure residual must
lie within the tolerance; otherwise ConvergenceError is raised rather than
a wrong answer being returned. -/
def cal_v_checked (ps : EOSParams) (p temp lo hi tol : ℝ) (fuel : ℕ) :
    Except EOSError ℝ :=
  if mgeos_p ps hi temp ≤ p ∧ p ≤ mgeos_p ps lo temp then
    if |mgeos_p ps (cal_v ps p temp lo hi fuel) temp - p| ≤ tol then
      Except.ok (cal_v ps p temp lo hi fuel)
    else Except.error EOSError.convergenceError
  else Except.error EOSError.convergenceError

/-- Modelled from the spec: the fitter's per-observation weight,
1/sigma^2 when a pressure uncertainty is available, else 1 (unweighted).
The lmfit-based fitter is not under src/ (the notebook's weight cell is
empty). -/
def fit_weight (sigma : Option ℝ) : ℝ :=
  match sigma with
  | some s => 1 / s ^ 2
  | none => 1

/-- Modelled from the spec: the weighted least-squares estimate of a
constant model given observations (value, optional sigma) — the minimizer
of the weighted sum of squared residuals, i.e. the weighted mean. -/
def wls_mean (data : List (ℝ × Option ℝ)) : ℝ :=
  (data.map fun d => fit_weight d.2 * d.1).sum / (data.map fun d => fit_weight d.2).sum

/-- Modelled from the spec: the unweighted least-squares estimate of a
constant model — the plain mean of the observed values. -/
def ols_mean (data : List (ℝ × Option ℝ)) : ℝ :=
  (data.map Prod.fst).sum / (data.length : ℝ)

/-- Claim C1: for every v, v0, k0, k0p with v > 0, v0 > 0, k0 > 0 the
Birch-Murnaghan third-order pressure bm3_p equals
(3 k0/2) (f^(7/3) - f^(5/3)) (1 - xi (f^(2/3) - 1)) with f = v0/v and
xi = (3/4)(4 - k0p). -/
theorem claim_C1 (v v0 k0 k0p : ℝ) (_hv : 0 < v) (_hv0 : 0 < v0) (_hk0 : 0 < k0) :
    bm3_p v v0 k0 k0p =
      3 * k0 / 2 * ((v0 / v) ^ ((7 : ℝ) / 3) - (v0 / v) ^ ((5 : ℝ) / 3)) *
        (1 - 3 / 4 * (4 - k0p) * ((v0 / v) ^ ((2 : ℝ) / 3) - 1)) := rfl

/-- Witness for C1 at v = 1, v0 = 1, k0 = 1, k0p = 4. -/
theorem claim_C1_witness :
    bm3_p 1 1 1 4 =
      3 * 1 / 2 * (((1 : ℝ) / 1) ^ ((7 : ℝ) / 3) - ((1 : ℝ) / 1) ^ ((5 : ℝ) / 3)) *
        (1 - 3 / 4 * (4 - 4) * (((1 : ℝ) / 1) ^ ((2 : ℝ) / 3) - 1)) :=
  claim_C1 1 1 1 4 (by norm_num) (by norm_num) (by norm_num)

/-- Claim C3: at the reference temperature T = T0 = 300 K the thermal
pressure vanishes for every volume and every parameter set, because the
internal-energy difference E(theta0, 300) - E(theta0, 300) is zero by
construction. -/
theorem claim_C3 (v v0 gamma0 q theta0 n z : ℝ) :
    constq_pth v 300 v0 gamma0 q theta0 n z = 0 := by
  unfold constq_pth
  rw [sub_self, mul_zero, zero_mul]

/-- Claim C9: at the reference volume the static pressure vanishes,
bm3_p v0 v0 k0 k0p = 0, since f = v0/v0 = 1 makes both bracketed factors
of the BM3 formula vanish. -/
theorem claim_C9 (v0 k0 k0p : ℝ) (hv0 : 0 < v0) (_hk0 : 0 < k0) :
    bm3_p v0 v0 k0 k0p = 0 := by
  unfold bm3_p
  rw [div_self hv0.ne']
  simp only [Real.one_rpow]
  ring

/-- Witness for C9 at v0 = 163, k0 = 260, k0p = 4 (the notebook's values). -/
theorem claim_C9_witness : bm3_p 163 163 260 4 = 0 :=
  claim_C9 163 260 4 (by norm_num) (by norm_num)

/-- Claim C4: nonphysical inputs are rejected with DomainError rather than
clamped: the static evaluator fails when v ≤ 0 or v0 ≤ 0 or k0 ≤ 0 (in
particular when v ≤ 0), and the thermal evaluator fails when v ≤ 0 or
v0 ≤ 0 or T < 0. -/
theorem claim_C4 (v v0 k0 k0p temp gamma0 q theta0 n z : ℝ)
    (hst : v ≤ 0 ∨ v0 ≤ 0 ∨ k0 ≤ 0) (hth : v ≤ 0 ∨ v0 ≤ 0 ∨ temp < 0) :
    bm3_p_checked v v0 k0 k0p = Except.error EOSError.domainError ∧
      constq_pth_checked v temp v0 gamma0 q theta0 n z =
        Except.error EOSError.domainError := by
  constructor
  · unfold bm3_p_checked
    rw [if_pos hst]
  · unfold constq_pth_checked
    rw [if_pos hth]

/-- Witness for C4 at v = -1 (all other inputs physical). -/
theorem claim_C4_witness :
    bm3_p_checked (-1) 163 260 4 = Except.error EOSError.domainError ∧
      constq_pth_checked (-1) 2000 163 1.5 1 1000 5 4 =
        Except.error EOSError.domainError :=
  claim_C4 (-1) 163 260 4 2000 1.5 1 1000 5 4 (Or.inl (by norm_num))
    (Or.inl (by norm_num))

/-- Counterexample for C7 as stated: a heteroscedastic dataset (two
distinct uncertainties 1 and 1/2) on which the inverse-variance-weighted
and the unweighted estimates coincide, so heteroscedastic uncertainties do
not always produce different parameter estimates. -/
theorem claim_C7_counterexample :
    ((1 : ℝ) ≠ 1 / 2) ∧
      wls_mean [((1 : ℝ), some (1 : ℝ)), (1, some (1 / 2))] =
        ols_mean [((1 : ℝ), some (1 : ℝ)), (1, some (1 / 2))] := by
  constructor
  · norm_num
  · simp only [wls_mean, ols_mean, fit_weight, List.map_cons, List.map_nil,
      List.sum_cons, List.sum_nil, List.length_cons, List.length_nil]
    norm_num

/-- Claim C7 (amended): the fitter assigns weight 1/sigma^2 when a
pressure uncertainty is available and 1 otherwise, and there is a
heteroscedastic dataset (distinct uncertainties) on which the unweighted
and the inverse-variance-weighted estimates differ. -/
theorem claim_C7 :
    (∀ s : ℝ, fit_weight (some s) = 1 / s ^ 2) ∧ fit_weight none = 1 ∧
      ((1 : ℝ) ≠ 1 / 2 ∧
        wls_mean [((0 : ℝ), some (1 : ℝ)), (3, some (1 / 2))] ≠
          ols_mean [((0 : ℝ), some (1 : ℝ)), (3, some (1 / 2))]) := by
  refine ⟨fun s => rfl, rfl, by norm_num, ?_⟩
  simp only [wls_mean, ols_mean, fit_weight, List.map_cons, List.map_nil,
    List.sum_cons, List.sum_nil, List.length_cons, List.length_nil]
  norm_num

/-- Factoring of the finite-strain bracket: f^(7/3) - f^(5/3) =
f^(5/3) (f^(2/3) - 1) for f > 0. -/
lemma bm3_bracket_factor (f : ℝ) (hf : 0 < f) :
    f ^ ((7 : ℝ) / 3) - f ^ ((5 : ℝ) / 3) =
      f ^ ((5 : ℝ) / 3) * (f ^ ((2 : ℝ) / 3) - 1) := by
  have h : f ^ ((7 : ℝ) / 3) = f ^ ((5 : ℝ) / 3) * f ^ ((2 : ℝ) / 3) := by
    rw [← Real.rpow_add hf]
    norm_num
  rw [h]
  ring

/-- Core monotonicity of the BM3 pressure as a function of the strain
ratio f = v0/v: for k0 > 0 and k0p ≥ 4 (xi ≤ 0) it is strictly increasing
in f on [1, ∞). -/
lemma bm3_core_strictMono (k0 k0p f1 f2 : ℝ) (hk0 : 0 < k0) (hk0p : 4 ≤ k0p)
    (h2 : 1 ≤ f2) (h12 : f2 < f1) :
    3 * k0 / 2 * (f2 ^ ((7 : ℝ) / 3) - f2 ^ ((5 : ℝ) / 3)) *
        (1 - 3 / 4 * (4 - k0p) * (f2 ^ ((2 : ℝ) / 3) - 1)) <
      3 * k0 / 2 * (f1 ^ ((7 : ℝ) / 3) - f1 ^ ((5 : ℝ) / 3)) *
        (1 - 3 / 4 * (4 - k0p) * (f1 ^ ((2 : ℝ) / 3) - 1)) := by
  have hf2pos : (0 : ℝ) < f2 := lt_of_lt_of_le one_pos h2
  have hf1pos : (0 : ℝ) < f1 := hf2pos.trans h12
  have hxi : 3 / 4 * (4 - k0p) ≤ 0 := by linarith
  have h53 : f2 ^ ((5 : ℝ) / 3) < f1 ^ ((5 : ℝ) / 3) :=
    Real.rpow_lt_rpow hf2pos.le h12 (by norm_num)
  have h23 : f2 ^ ((2 : ℝ) / 3) < f1 ^ ((2 : ℝ) / 3) :=
    Real.rpow_lt_rpow hf2pos.le h12 (by norm_num)
  have h53pos : (0 : ℝ) < f2 ^ ((5 : ℝ) / 3) := Real.rpow_pos_of_pos hf2pos _
  have h1le : (1 : ℝ) ≤ f2 ^ ((2 : ℝ) / 3) := by
    calc (1 : ℝ) = 1 ^ ((2 : ℝ) / 3) := (Real.one_rpow _).symm
    _ ≤ f2 ^ ((2 : ℝ) / 3) := Real.rpow_le_rpow zero_le_one h2 (by norm_num)
  have hA : f2 ^ ((5 : ℝ) / 3) * (f2 ^ ((2 : ℝ) / 3) - 1) <
      f1 ^ ((5 : ℝ) / 3) * (f1 ^ ((2 : ℝ) / 3) - 1) := by
    rcases eq_or_lt_of_le h1le with h | h
    · have hz : f2 ^ ((2 : ℝ) / 3) - 1 = 0 := by linarith
      rw [hz, mul_zero]
      exact mul_pos (Real.rpow_pos_of_pos hf1pos _) (by linarith)
    · exact mul_lt_mul'' h53 (by linarith) h53pos.le (by linarith)
  have hA2nonneg : 0 ≤ f2 ^ ((5 : ℝ) / 3) * (f2 ^ ((2 : ℝ) / 3) - 1) :=
    mul_nonneg h53pos.le (by linarith)
  have hB2 : (1 : ℝ) ≤ 1 - 3 / 4 * (4 - k0p) * (f2 ^ ((2 : ℝ) / 3) - 1) := by
    nlinarith [mul_nonneg (neg_nonneg.mpr hxi) (sub_nonneg.mpr h1le)]
  have hB12 : 1 - 3 / 4 * (4 - k0p) * (f2 ^ ((2 : ℝ) / 3) - 1) ≤
      1 - 3 / 4 * (4 - k0p) * (f1 ^ ((2 : ℝ) / 3) - 1) := by
    nlinarith [mul_le_mul_of_nonneg_left (sub_le_sub_right h23.le (1 : ℝ))
      (neg_nonneg.mpr hxi)]
  have hcpos : (0 : ℝ) < 3 * k0 / 2 := by linarith
  rw [bm3_bracket_factor f1 hf1pos, bm3_bracket_factor f2 hf2pos]
  calc 3 * k0 / 2 * (f2 ^ ((5 : ℝ) / 3) * (f2 ^ ((2 : ℝ) / 3) - 1)) *
        (1 - 3 / 4 * (4 - k0p) * (f2 ^ ((2 : ℝ) / 3) - 1)) <
      3 * k0 / 2 * (f1 ^ ((5 : ℝ) / 3) * (f1 ^ ((2 : ℝ) / 3) - 1)) *
        (1 - 3 / 4 * (4 - k0p) * (f2 ^ ((2 : ℝ) / 3) - 1)) := by
        exact mul_lt_mul_of_pos_right (mul_lt_mul_of_pos_left hA hcpos)
          (by linarith)
    _ ≤ 3 * k0 / 2 * (f1 ^ ((5 : ℝ) / 3) * (f1 ^ ((2 : ℝ) / 3) - 1)) *
        (1 - 3 / 4 * (4 - k0p) * (f1 ^ ((2 : ℝ) / 3) - 1)) := by
        have hpos : 0 ≤ 3 * k0 / 2 * (f1 ^ ((5 : ℝ) / 3) * (f1 ^ ((2 : ℝ) / 3) - 1)) :=
          le_of_lt (mul_pos hcpos (hA2nonneg.trans_lt hA))
        exact mul_le_mul_of_nonneg_left hB12 hpos

/-- BM3 static pressure is strictly antitone in the volume on (0, v0] when
k0 > 0 and k0p ≥ 4. -/
lemma bm3_p_strict_anti (v0 k0 k0p v1 v2 : ℝ) (hk0 : 0 < k0) (hk0p : 4 ≤ k0p)
    (h1 : 0 < v1) (h12 : v1 < v2) (h2 : v2 ≤ v0) :
    bm3_p v2 v0 k0 k0p < bm3_p v1 v0 k0 k0p := by
  have hv2 : 0 < v2 := h1.trans h12
  have hv0 : 0 < v0 := lt_of_lt_of_le hv2 h2
  have hf2 : 1 ≤ v0 / v2 := (one_le_div hv2).mpr h2
  have hf12 : v0 / v2 < v0 / v1 := div_lt_div_of_pos_left hv0 h1 h12
  unfold bm3_p
  exact bm3_core_strictMono k0 k0p (v0 / v1) (v0 / v2) hk0 hk0p hf2 hf12

/-- Evaluation of an rpow with denominator-3 exponent at a perfect cube. -/
lemma cube_rpow (c : ℝ) (hc : 0 ≤ c) (k : ℕ) :
    (c ^ (3 : ℕ)) ^ ((k : ℝ) / 3) = c ^ k := by
  rw [← Real.rpow_natCast c 3, ← Real.rpow_mul hc]
  have he : ((3 : ℕ) : ℝ) * ((k : ℝ) / 3) = (k : ℝ) := by
    push_cast
    ring
  rw [he, Real.rpow_natCast]

/-- Concrete BM3 value at v = 1/8, v0 = 1, k0 = 2, k0p = 0 (strain ratio 8). -/
lemma bm3_p_val_eighth : bm3_p (1 / 8) 1 2 0 = -2304 := by
  unfold bm3_p
  have h : (1 : ℝ) / (1 / 8) = (2 : ℝ) ^ (3 : ℕ) := by norm_num
  rw [h]
  have e7 : ((2 : ℝ) ^ (3 : ℕ)) ^ ((7 : ℝ) / 3) = (2 : ℝ) ^ (7 : ℕ) := by
    have h7 : ((7 : ℝ)) = ((7 : ℕ) : ℝ) := by norm_num
    rw [h7, cube_rpow 2 (by norm_num) 7]
  have e5 : ((2 : ℝ) ^ (3 : ℕ)) ^ ((5 : ℝ) / 3) = (2 : ℝ) ^ (5 : ℕ) := by
    have h5 : ((5 : ℝ)) = ((5 : ℕ) : ℝ) := by norm_num
    rw [h5, cube_rpow 2 (by norm_num) 5]
  have e2 : ((2 : ℝ) ^ (3 : ℕ)) ^ ((2 : ℝ) / 3) = (2 : ℝ) ^ (2 : ℕ) := by
    have h2 : ((2 : ℝ)) / 3 = ((2 : ℕ) : ℝ) / 3 := by norm_num
    rw [h2, cube_rpow 2 (by norm_num) 2]
  rw [e7, e5, e2]
  norm_num

/-- Concrete BM3 value at v = 8/27, v0 = 1, k0 = 2, k0p = 0 (strain ratio
27/8 = (3/2)^3). -/
lemma bm3_p_val_cube : bm3_p (8 / 27) 1 2 0 = -(40095 / 512) := by
  unfold bm3_p
  have h : (1 : ℝ) / (8 / 27) = ((3 : ℝ) / 2) ^ (3 : ℕ) := by norm_num
  rw [h]
  have e7 : (((3 : ℝ) / 2) ^ (3 : ℕ)) ^ ((7 : ℝ) / 3) = ((3 : ℝ) / 2) ^ (7 : ℕ) := by
    have h7 : ((7 : ℝ)) = ((7 : ℕ) : ℝ) := by norm_num
    rw [h7, cube_rpow (3 / 2) (by norm_num) 7]
  have e5 : (((3 : ℝ) / 2) ^ (3 : ℕ)) ^ ((5 : ℝ) / 3) = ((3 : ℝ) / 2) ^ (5 : ℕ) := by
    have h5 : ((5 : ℝ)) = ((5 : ℕ) : ℝ) := by norm_num
    rw [h5, cube_rpow (3 / 2) (by norm_num) 5]
  have e2 : (((3 : ℝ) / 2) ^ (3 : ℕ)) ^ ((2 : ℝ) / 3) = ((3 : ℝ) / 2) ^ (2 : ℕ) := by
    have h2 : ((2 : ℝ)) / 3 = ((2 : ℕ) : ℝ) / 3 := by norm_num
    rw [h2, cube_rpow (3 / 2) (by norm_num) 2]
  rw [e7, e5, e2]
  norm_num

/-- Counterexample for C6 as stated: with v0 = 1, k0 = 2, k0p = 0 the pair
v1 = 1/8 < v2 = 8/27 < v0 has bm3_p v1 = -2304 < bm3_p v2 = -40095/512, so
BM3 static pressure is not monotonically increasing as V decreases for
every parameter set. -/
theorem claim_C6_counterexample :
    (0 : ℝ) < 1 / 8 ∧ (1 / 8 : ℝ) < 8 / 27 ∧ (8 / 27 : ℝ) < 1 ∧ (0 : ℝ) < 2 ∧
      ¬ bm3_p (8 / 27) 1 2 0 < bm3_p (1 / 8) 1 2 0 := by
  refine ⟨by norm_num, by norm_num, by norm_num, by norm_num, ?_⟩
  rw [bm3_p_val_eighth, bm3_p_val_cube]
  norm_num

/-- Claim C6 (amended): for k0p ≥ 4 (i.e. xi ≤ 0; the notebook's value is
k0p = 4), BM3 static pressure is monotonically increasing as V decreases:
for every 0 < v1 < v2 < v0 with k0 > 0, bm3_p v1 > bm3_p v2. -/
theorem claim_C6 (v0 k0 k0p v1 v2 : ℝ) (hk0 : 0 < k0) (hk0p : 4 ≤ k0p)
    (h1 : 0 < v1) (h12 : v1 < v2) (h2 : v2 < v0) :
    bm3_p v2 v0 k0 k0p < bm3_p v1 v0 k0 k0p :=
  bm3_p_strict_anti v0 k0 k0p v1 v2 hk0 hk0p h1 h12 h2.le

/-- Witness for C6 (amended) at v0 = 163, k0 = 260, k0p = 4,
v1 = 130, v2 = 150. -/
theorem claim_C6_witness : bm3_p 150 163 260 4 < bm3_p 130 163 260 4 :=
  claim_C6 163 260 4 130 150 (by norm_num) (by norm_num) (by norm_num)
    (by norm_num) (by norm_num)

/-- Unfolding of bisect at fuel 0. -/
lemma bisect_zero (f : ℝ → ℝ) (p lo hi : ℝ) :
    bisect f p lo hi 0 = (lo + hi) / 2 := rfl

/-- Unfolding of bisect at a successor fuel. -/
lemma bisect_succ (f : ℝ → ℝ) (p lo hi : ℝ) (fuel : ℕ) :
    bisect f p lo hi (fuel + 1) =
      if p < f ((lo + hi) / 2) then bisect f p ((lo + hi) / 2) hi fuel
      else bisect f p lo ((lo + hi) / 2) fuel := rfl

/-- Bisection convergence: if f is strictly antitone on the bracket and the
target pressure is attained at v inside the bracket, then after fuel
halvings the returned point is within (hi - lo) / 2^(fuel+1) of v. -/
lemma bisect_abs_sub_le (f : ℝ → ℝ) (p v : ℝ) :
    ∀ (fuel : ℕ) (lo hi : ℝ), StrictAntiOn f (Set.Icc lo hi) →
      lo ≤ v → v ≤ hi → f v = p →
      |bisect f p lo hi fuel - v| ≤ (hi - lo) / 2 ^ (fuel + 1) := by
  intro fuel
  induction fuel with
  | zero =>
    intro lo hi _ hlo hhi _
    rw [bisect_zero, pow_one, abs_le]
    constructor <;> linarith
  | succ fuel ih =>
    intro lo hi hanti hlo hhi hfv
    have hm_lo : lo ≤ (lo + hi) / 2 := by linarith
    have hm_hi : (lo + hi) / 2 ≤ hi := by linarith
    have hmem_v : v ∈ Set.Icc lo hi := ⟨hlo, hhi⟩
    have hmem_m : (lo + hi) / 2 ∈ Set.Icc lo hi := ⟨hm_lo, hm_hi⟩
    rw [bisect_succ]
    by_cases hpm : p < f ((lo + hi) / 2)
    · rw [if_pos hpm]
      have hmv : (lo + hi) / 2 < v := by
        by_contra hc
        push_neg at hc
        rcases eq_or_lt_of_le hc with he | hlt
        · rw [← he, hfv] at hpm
          exact lt_irrefl p hpm
        · have hlt2 := hanti hmem_v hmem_m hlt
          rw [hfv] at hlt2
          exact absurd hpm (not_lt.mpr hlt2.le)
      have bound := ih ((lo + hi) / 2) hi
        (hanti.mono (Set.Icc_subset_Icc hm_lo le_rfl)) hmv.le hhi hfv
      calc |bisect f p ((lo + hi) / 2) hi fuel - v|
          ≤ (hi - (lo + hi) / 2) / 2 ^ (fuel + 1) := bound
        _ = (hi - lo) / 2 ^ (fuel + 1 + 1) := by
            have h1 : hi - (lo + hi) / 2 = (hi - lo) / 2 := by ring
            have h2 : (2 : ℝ) ^ (fuel + 1 + 1) = 2 * 2 ^ (fuel + 1) := by
              rw [pow_succ, mul_comm]
            rw [h1, div_div, h2]
    · rw [if_neg hpm]
      push_neg at hpm
      have hvm : v ≤ (lo + hi) / 2 := by
        by_contra hc
        push_neg at hc
        have hlt2 := hanti hmem_m hmem_v hc
        rw [hfv] at hlt2
        exact absurd hlt2 (not_lt.mpr hpm)
      have bound := ih lo ((lo + hi) / 2)
        (hanti.mono (Set.Icc_subset_Icc le_rfl hm_hi)) hlo hvm hfv
      calc |bisect f p lo ((lo + hi) / 2) fuel - v|
          ≤ ((lo + hi) / 2 - lo) / 2 ^ (fuel + 1) := bound
        _ = (hi - lo) / 2 ^ (fuel + 1 + 1) := by
            have h1 : (lo + hi) / 2 - lo = (hi - lo) / 2 := by ring
            have h2 : (2 : ℝ) ^ (fuel + 1 + 1) = 2 * 2 ^ (fuel + 1) := by
              rw [pow_succ, mul_comm]
            rw [h1, div_div, h2]

/-- Claim C2: round trip of the inverse solver.  If the total pressure is
strictly antitone in volume on the bracket [lo, hi] (the physical situation
on (0, v0]), v lies in the bracket, and the iteration budget makes the
final bracket width (hi - lo) / 2^(fuel+1) at most the configured
tolerance, then cal_v applied to mgeos_p ps v t returns v within that
tolerance. -/
theorem claim_C2 (ps : EOSParams) (t v lo hi tol : ℝ) (fuel : ℕ)
    (hanti : StrictAntiOn (fun w => mgeos_p ps w t) (Set.Icc lo hi))
    (hlo : lo ≤ v) (hhi : v ≤ hi)
    (htol : (hi - lo) / 2 ^ (fuel + 1) ≤ tol) :
    |cal_v ps (mgeos_p ps v t) t lo hi fuel - v| ≤ tol :=
  le_trans (bisect_abs_sub_le (fun w => mgeos_p ps w t) (mgeos_p ps v t) v
    fuel lo hi hanti hlo hhi rfl) htol

/-- A concrete parameter set with zero Gruneisen parameter (no thermal
pressure), v0 = 1, k0 = 2, k0p = 4, used to instantiate the round-trip
theorem. -/
def psStatic : EOSParams := ⟨1, 2, 4, 0, 1, 1, 1, 1⟩

/-- With gamma0 = 0 the total pressure of psStatic is the bare BM3 static
pressure. -/
lemma mgeos_p_psStatic (v t : ℝ) : mgeos_p psStatic v t = bm3_p v 1 2 4 := by
  unfold mgeos_p constq_pth psStatic
  simp

/-- The total pressure of psStatic is strictly antitone on [1/2, 1]. -/
lemma psStatic_strictAnti (t : ℝ) :
    StrictAntiOn (fun w => mgeos_p psStatic w t) (Set.Icc (1 / 2 : ℝ) 1) := by
  intro a ha b hb hab
  show mgeos_p psStatic b t < mgeos_p psStatic a t
  rw [mgeos_p_psStatic, mgeos_p_psStatic]
  exact bm3_p_strict_anti 1 2 4 a b (by norm_num) (by norm_num)
    (lt_of_lt_of_le (by norm_num) ha.1) hab hb.2

/-- Witness for C2: the round trip at v = 3/4 on the bracket [1/2, 1] with
fuel 2 and tolerance 1/16. -/
theorem claim_C2_witness :
    |cal_v psStatic (mgeos_p psStatic (3 / 4) 300) 300 (1 / 2) 1 2 - 3 / 4| ≤ 1 / 16 :=
  claim_C2 psStatic 300 (3 / 4) (1 / 2) 1 (1 / 16) 2 (psStatic_strictAnti 300)
    (by norm_num) (by norm_num) (by norm_num)

/-- Claim C5: the checked inverse solver never silently returns a wrong
answer: whenever it returns Except.ok r the pressure residual at r is within
the tolerance, and when the bracket does not contain a sign change of the
residual it fails with ConvergenceError. -/
theorem claim_C5 (ps : EOSParams) (p t lo hi tol : ℝ) (fuel : ℕ) :
    (∀ r, cal_v_checked ps p t lo hi tol fuel = Except.ok r →
        |mgeos_p ps r t - p| ≤ tol) ∧
      (¬(mgeos_p ps hi t ≤ p ∧ p ≤ mgeos_p ps lo t) →
        cal_v_checked ps p t lo hi tol fuel =
          Except.error EOSError.convergenceError) := by
  constructor
  · intro r hr
    unfold cal_v_checked at hr
    by_cases h1 : mgeos_p ps hi t ≤ p ∧ p ≤ mgeos_p ps lo t
    · rw [if_pos h1] at hr
      by_cases h2 : |mgeos_p ps (cal_v ps p t lo hi fuel) t - p| ≤ tol
      · rw [if_pos h2] at hr
        injection hr with hr
        rw [← hr]
        exact h2
      · rw [if_neg h2] at hr
        simp at hr
    · rw [if_neg h1] at hr
      simp at hr
  · intro h
    unfold cal_v_checked
    rw [if_neg h]

/-- A degenerate parameter set (k0 = 0, gamma0 = 0) whose total pressure is
identically zero, used to exhibit an invalid bracket. -/
def psZero : EOSParams := ⟨1, 0, 4, 0, 1, 1, 1, 1⟩

/-- The total pressure of psZero vanishes everywhere. -/
lemma mgeos_p_psZero (v t : ℝ) : mgeos_p psZero v t = 0 := by
  unfold mgeos_p constq_pth bm3_p psZero
  simp

/-- Witness for C5: a target pressure of 1 with the identically-zero model
gives a bracket with no sign change, so the solver fails with
ConvergenceError. -/
theorem claim_C5_witness :
    cal_v_checked psZero 1 300 (1 / 2) 1 (1 / 100) 5 =
      Except.error EOSError.convergenceError :=
  (claim_C5 psZero 1 300 (1 / 2) 1 (1 / 100) 5).2
    (by simp only [mgeos_p_psZero]; norm_num)

/-- The gas constant is positive. -/
lemma Rgas_pos : (0 : ℝ) < Rgas := by
  unfold Rgas
  norm_num

/-- exp t - 1 is positive for t > 0. -/
lemma exp_sub_one_pos (t : ℝ) (ht : 0 < t) : 0 < Real.exp t - 1 := by
  have h : Real.exp 0 < Real.exp t := Real.exp_lt_exp.mpr ht
  rw [Real.exp_zero] at h
  linarith

/-- t ≤ exp t - 1 for every t. -/
lemma le_exp_sub_one (t : ℝ) : t ≤ Real.exp t - 1 := by
  have h := Real.add_one_le_exp t
  linarith

/-- exp t - 1 ≤ t * exp t for t ≥ 0. -/
lemma exp_sub_one_le (t : ℝ) : Real.exp t - 1 ≤ t * Real.exp t := by
  have h2 : -t + 1 ≤ Real.exp (-t) := by
    have := Real.add_one_le_exp (-t)
    linarith
  have h3 : (0 : ℝ) < Real.exp t := Real.exp_pos t
  have h4 : (-t + 1) * Real.exp t ≤ Real.exp (-t) * Real.exp t :=
    mul_le_mul_of_nonneg_right h2 h3.le
  rw [← Real.exp_add, neg_add_cancel, Real.exp_zero] at h4
  nlinarith [h4]

/-- The Debye integrand is nonnegative on [0, ∞). -/
lemma debyeIntegrand_nonneg (t : ℝ) (ht : 0 ≤ t) : 0 ≤ debyeIntegrand t := by
  rcases eq_or_lt_of_le ht with h | h
  · unfold debyeIntegrand
    rw [← h]
    norm_num
  · exact le_of_lt (div_pos (pow_pos h 3) (exp_sub_one_pos t h))

/-- The Debye integrand is bounded above by t^2 on [0, ∞). -/
lemma debyeIntegrand_le_sq (t : ℝ) (ht : 0 ≤ t) : debyeIntegrand t ≤ t ^ 2 := by
  rcases eq_or_lt_of_le ht with h | h
  · unfold debyeIntegrand
    rw [← h]
    norm_num
  · unfold debyeIntegrand
    calc t ^ 3 / (Real.exp t - 1) ≤ t ^ 3 / t :=
          div_le_div_of_nonneg_left (pow_nonneg ht 3) h (le_exp_sub_one t)
      _ = t ^ 2 := by
          rw [pow_succ, mul_div_assoc, div_self h.ne', mul_one]

/-- The Debye integrand is bounded below by t^2 - t^3 on [0, ∞). -/
lemma debyeIntegrand_ge (t : ℝ) (ht : 0 ≤ t) : t ^ 2 - t ^ 3 ≤ debyeIntegrand t := by
  rcases eq_or_lt_of_le ht with h | h
  · unfold debyeIntegrand
    rw [← h]
    norm_num
  · have hexp : (0 : ℝ) < Real.exp t := Real.exp_pos t
    have h2 : 1 - t ≤ (Real.exp t)⁻¹ := by
      have := Real.add_one_le_exp (-t)
      rw [Real.exp_neg] at this
      linarith
    have hstep : t ^ 2 - t ^ 3 ≤ t ^ 3 / (t * Real.exp t) := by
      have he : t ^ 3 / (t * Real.exp t) = t ^ 2 * (Real.exp t)⁻¹ := by
        field_simp
        ring
      rw [he]
      have hmul := mul_le_mul_of_nonneg_left h2 (sq_nonneg t)
      nlinarith [hmul]
    have hdiv : t ^ 3 / (t * Real.exp t) ≤ t ^ 3 / (Real.exp t - 1) :=
      div_le_div_of_nonneg_left (pow_nonneg ht 3) (exp_sub_one_pos t h)
        (exp_sub_one_le t)
    calc t ^ 2 - t ^ 3 ≤ t ^ 3 / (t * Real.exp t) := hstep
      _ ≤ t ^ 3 / (Real.exp t - 1) := hdiv
      _ = debyeIntegrand t := rfl

/-- The Debye integrand is measurable. -/
lemma debyeIntegrand_measurable : Measurable debyeIntegrand := by
  unfold debyeIntegrand
  measurability

/-- The Debye integrand is continuous away from 0. -/
lemma debyeIntegrand_continuousOn (a b : ℝ) (ha : 0 < a) :
    ContinuousOn debyeIntegrand (Set.Icc a b) := by
  unfold debyeIntegrand
  apply ContinuousOn.div (continuous_pow 3).continuousOn
    ((Real.continuous_exp.sub continuous_const).continuousOn)
  intro t ht
  exact (exp_sub_one_pos t (lt_of_lt_of_le ha ht.1)).ne'

/-- The Debye integrand is interval integrable on [0, x]. -/
lemma debyeIntegrand_intervalIntegrable (x : ℝ) (hx : 0 ≤ x) :
    IntervalIntegrable debyeIntegrand MeasureTheory.volume 0 x := by
  rw [intervalIntegrable_iff_integrableOn_Ioc_of_le hx]
  have hconst : MeasureTheory.IntegrableOn (fun _ : ℝ => x ^ 2) (Set.Ioc 0 x)
      MeasureTheory.volume :=
    MeasureTheory.integrableOn_const.mpr (Or.inr measure_Ioc_lt_top)
  apply MeasureTheory.Integrable.mono' hconst
    (debyeIntegrand_measurable.aestronglyMeasurable.restrict)
  rw [MeasureTheory.ae_restrict_iff' measurableSet_Ioc]
  apply MeasureTheory.ae_of_all
  intro t ht
  rw [Real.norm_eq_abs, abs_of_nonneg (debyeIntegrand_nonneg t ht.1.le)]
  calc debyeIntegrand t ≤ t ^ 2 := debyeIntegrand_le_sq t ht.1.le
    _ ≤ x ^ 2 := pow_le_pow_left₀ ht.1.le ht.2 2

/-- Upper bound on the Debye integral: D(x) ≤ x^3 / 3 for x ≥ 0. -/
lemma debye_int_le (x : ℝ) (hx : 0 ≤ x) : debye_int x ≤ x ^ 3 / 3 := by
  unfold debye_int
  have hmono : (∫ t in (0 : ℝ)..x, debyeIntegrand t) ≤ ∫ t in (0 : ℝ)..x, t ^ 2 :=
    intervalIntegral.integral_mono_on hx (debyeIntegrand_intervalIntegrable x hx)
      ((continuous_pow 2).intervalIntegrable 0 x)
      (fun t ht => debyeIntegrand_le_sq t ht.1)
  have hval : (∫ t in (0 : ℝ)..x, t ^ 2) = x ^ 3 / 3 := by
    rw [integral_pow]
    norm_num
  rw [hval] at hmono
  exact hmono

/-- Lower bound on the Debye integral: x^3/3 - x^4/4 ≤ D(x) for x ≥ 0. -/
lemma debye_int_ge (x : ℝ) (hx : 0 ≤ x) : x ^ 3 / 3 - x ^ 4 / 4 ≤ debye_int x := by
  unfold debye_int
  have hmono : (∫ t in (0 : ℝ)..x, (t ^ 2 - t ^ 3)) ≤
      ∫ t in (0 : ℝ)..x, debyeIntegrand t :=
    intervalIntegral.integral_mono_on hx
      (((continuous_pow 2).sub (continuous_pow 3)).intervalIntegrable 0 x)
      (debyeIntegrand_intervalIntegrable x hx)
      (fun t ht => debyeIntegrand_ge t ht.1)
  have hval : (∫ t in (0 : ℝ)..x, (t ^ 2 - t ^ 3)) = x ^ 3 / 3 - x ^ 4 / 4 := by
    rw [intervalIntegral.integral_sub ((continuous_pow 2).intervalIntegrable 0 x)
      ((continuous_pow 3).intervalIntegrable 0 x), integral_pow, integral_pow]
    norm_num
  rw [hval] at hmono
  exact hmono

/-- Lower cut for the Debye integral: D(a) ≥ a^4 / (4 (exp a - 1)). -/
lemma debye_int_lower_cut (a : ℝ) (ha : 0 < a) :
    a ^ 4 / (4 * (Real.exp a - 1)) ≤ debye_int a := by
  unfold debye_int
  have hEa : 0 < Real.exp a - 1 := exp_sub_one_pos a ha
  have hmono : (∫ t in (0 : ℝ)..a, t ^ 3 / (Real.exp a - 1)) ≤
      ∫ t in (0 : ℝ)..a, debyeIntegrand t := by
    apply intervalIntegral.integral_mono_on ha.le
      (((continuous_pow 3).div_const _).intervalIntegrable 0 a)
      (debyeIntegrand_intervalIntegrable a ha.le)
    intro t ht
    rcases eq_or_lt_of_le ht.1 with h | h
    · unfold debyeIntegrand
      rw [← h]
      norm_num
    · unfold debyeIntegrand
      apply div_le_div_of_nonneg_left (pow_nonneg ht.1 3) (exp_sub_one_pos t h)
      have := Real.exp_le_exp.mpr ht.2
      linarith
  have hval : (∫ t in (0 : ℝ)..a, t ^ 3 / (Real.exp a - 1)) =
      a ^ 4 / (4 * (Real.exp a - 1)) := by
    rw [intervalIntegral.integral_div, integral_pow, div_div]
    norm_num
  rw [hval] at hmono
  exact hmono

/-- Upper cut for the tail of the Debye integral: for 0 < a < b,
∫_a^b xi^3/(exp xi - 1) < (b^4 - a^4) / (4 (exp a - 1)) (strictly, since the
integrand is strictly below xi^3/(exp a - 1) on (a, b]). -/
lemma debye_tail_upper_cut (a b : ℝ) (ha : 0 < a) (hab : a < b) :
    (∫ t in a..b, debyeIntegrand t) < (b ^ 4 - a ^ 4) / (4 * (Real.exp a - 1)) := by
  have hEa : 0 < Real.exp a - 1 := exp_sub_one_pos a ha
  have hlt : (∫ t in a..b, debyeIntegrand t) <
      ∫ t in a..b, t ^ 3 / (Real.exp a - 1) := by
    apply intervalIntegral.integral_lt_integral_of_continuousOn_of_le_of_exists_lt hab
      (debyeIntegrand_continuousOn a b ha)
      (((continuous_pow 3).div_const _).continuousOn)
    · intro t ht
      have htpos : 0 < t := ha.trans ht.1
      unfold debyeIntegrand
      apply div_le_div_of_nonneg_left (pow_nonneg htpos.le 3) hEa
      have := Real.exp_le_exp.mpr ht.1.le
      linarith
    · refine ⟨b, Set.right_mem_Icc.mpr hab.le, ?_⟩
      have hbpos : 0 < b := ha.trans hab
      unfold debyeIntegrand
      apply div_lt_div_of_pos_left (pow_pos hbpos 3) hEa
      have := Real.exp_lt_exp.mpr hab
      linarith
  have hval : (∫ t in a..b, t ^ 3 / (Real.exp a - 1)) =
      (b ^ 4 - a ^ 4) / (4 * (Real.exp a - 1)) := by
    rw [intervalIntegral.integral_div, integral_pow, div_div]
    norm_num
  rw [hval] at hlt
  exact hlt

/-- Splitting of the Debye integral at an interior point a. -/
lemma debye_int_split (a b : ℝ) (ha : 0 < a) (hab : a < b) :
    debye_int b = debye_int a + ∫ t in a..b, debyeIntegrand t := by
  unfold debye_int
  rw [intervalIntegral.integral_add_adjacent_intervals
    (debyeIntegrand_intervalIntegrable a ha.le)
    ((debyeIntegrand_continuousOn a b ha).intervalIntegrable_of_Icc hab.le)]

/-- Strict antitonicity of x ↦ D(x)/x^4 on (0, ∞), in multiplicative form:
for 0 < a < b, a^4 D(b) < b^4 D(a). -/
lemma debye_scaled_lt (a b : ℝ) (ha : 0 < a) (hab : a < b) :
    a ^ 4 * debye_int b < b ^ 4 * debye_int a := by
  have hEa : 0 < Real.exp a - 1 := exp_sub_one_pos a ha
  have ha4 : (0 : ℝ) < a ^ 4 := pow_pos ha 4
  have hsplit := debye_int_split a b ha hab
  have h1 : a ^ 4 * (∫ t in a..b, debyeIntegrand t) <
      a ^ 4 * ((b ^ 4 - a ^ 4) / (4 * (Real.exp a - 1))) :=
    mul_lt_mul_of_pos_left (debye_tail_upper_cut a b ha hab) ha4
  have h2 : (b ^ 4 - a ^ 4) * (a ^ 4 / (4 * (Real.exp a - 1))) ≤
      (b ^ 4 - a ^ 4) * debye_int a :=
    mul_le_mul_of_nonneg_left (debye_int_lower_cut a ha)
      (sub_nonneg.mpr (pow_le_pow_left₀ ha.le hab.le 4))
  have h3 : a ^ 4 * ((b ^ 4 - a ^ 4) / (4 * (Real.exp a - 1))) =
      (b ^ 4 - a ^ 4) * (a ^ 4 / (4 * (Real.exp a - 1))) := by
    ring
  calc a ^ 4 * debye_int b
      = a ^ 4 * debye_int a + a ^ 4 * (∫ t in a..b, debyeIntegrand t) := by
        rw [hsplit]
        ring
    _ < a ^ 4 * debye_int a + (b ^ 4 - a ^ 4) * debye_int a := by linarith
    _ = b ^ 4 * debye_int a := by ring

/-- The Debye internal energy is strictly increasing in temperature (for
theta > 0, n > 0): the heat content grows with T. -/
lemma E_debye_mono (theta n t1 t2 : ℝ) (htheta : 0 < theta) (hn : 0 < n)
    (h1 : 0 < t1) (h12 : t1 < t2) : E_debye theta t1 n < E_debye theta t2 n := by
  have h2 : 0 < t2 := h1.trans h12
  have hxa : 0 < theta / t2 := div_pos htheta h2
  have hxb : 0 < theta / t1 := div_pos htheta h1
  have hab : theta / t2 < theta / t1 := div_lt_div_of_pos_left htheta h1 h12
  have hkey := debye_scaled_lt (theta / t2) (theta / t1) hxa hab
  unfold E_debye
  rw [if_neg h1.ne', if_neg h2.ne']
  have e1 : 9 * n * Rgas * t1 / (theta / t1) ^ (3 : ℕ) * debye_int (theta / t1) =
      9 * n * Rgas * theta * (debye_int (theta / t1) / (theta / t1) ^ 4) := by
    rw [div_pow]
    field_simp
    ring
  have e2 : 9 * n * Rgas * t2 / (theta / t2) ^ (3 : ℕ) * debye_int (theta / t2) =
      9 * n * Rgas * theta * (debye_int (theta / t2) / (theta / t2) ^ 4) := by
    rw [div_pow]
    field_simp
    ring
  rw [e1, e2]
  apply mul_lt_mul_of_pos_left _
    (mul_pos (mul_pos (mul_pos (by norm_num : (0 : ℝ) < 9) hn) Rgas_pos) htheta)
  rw [div_lt_div_iff₀ (pow_pos hxb 4) (pow_pos hxa 4)]
  nlinarith [hkey]

/-- Claim C10: for t > 300 K, 0 < v ≤ v0, positive gamma0 (and positive
theta0, n, z), the constant-q thermal pressure is strictly positive, so the
total pressure p_st + p_th exceeds the 300-K static pressure p_st. -/
theorem claim_C10 (v temp v0 k0 k0p gamma0 q theta0 n z : ℝ)
    (ht : 300 < temp) (hv : 0 < v) (hvv0 : v ≤ v0) (hg : 0 < gamma0)
    (hth : 0 < theta0) (hn : 0 < n) (hz : 0 < z) :
    0 < constq_pth v temp v0 gamma0 q theta0 n z ∧
      bm3_p v v0 k0 k0p <
        bm3_p v v0 k0 k0p + constq_pth v temp v0 gamma0 q theta0 n z := by
  have hv0 : 0 < v0 := hv.trans_le hvv0
  have hE : E_debye theta0 300 n < E_debye theta0 temp n :=
    E_debye_mono theta0 n 300 temp hth hn (by norm_num) ht
  have hgam : 0 < gamma0 * (v / v0) ^ q / v :=
    div_pos (mul_pos hg (Real.rpow_pos_of_pos (div_pos hv hv0) q)) hv
  have hconv : 0 < econv z := by
    unfold econv
    positivity
  have hpos : 0 < constq_pth v temp v0 gamma0 q theta0 n z := by
    unfold constq_pth
    exact mul_pos (mul_pos hgam (sub_pos.mpr hE)) hconv
  exact ⟨hpos, by linarith⟩

/-- Witness for C10 at v = 1, t = 400, v0 = 1, k0 = 1, k0p = 4,
gamma0 = 1, q = 1, theta0 = 1, n = 1, z = 1. -/
theorem claim_C10_witness :
    0 < constq_pth 1 400 1 1 1 1 1 1 ∧
      bm3_p 1 1 1 4 < bm3_p 1 1 1 4 + constq_pth 1 400 1 1 1 1 1 1 :=
  claim_C10 1 400 1 1 4 1 1 1 1 1 (by norm_num) (by norm_num) (by norm_num)
    (by norm_num) (by norm_num) (by norm_num) (by norm_num)

/-- The normalized Debye integral 9 D(x)/x^3 tends to 3 as x → 0+
(squeeze between 3 - 9x/4 and 3). -/
lemma debye_ratio_tendsto :
    Filter.Tendsto (fun x : ℝ => 9 * debye_int x / x ^ 3)
      (nhdsWithin 0 (Set.Ioi 0)) (nhds 3) := by
  have hlow : Filter.Tendsto (fun x : ℝ => 3 - 9 * x / 4)
      (nhdsWithin 0 (Set.Ioi 0)) (nhds 3) := by
    have h : Filter.Tendsto (fun x : ℝ => 3 - 9 * x / 4) (nhds 0)
        (nhds (3 - 9 * 0 / 4)) :=
      (continuous_const.sub ((continuous_const.mul continuous_id).div_const 4)).tendsto 0
    norm_num at h
    exact h.mono_left nhdsWithin_le_nhds
  apply tendsto_of_tendsto_of_tendsto_of_le_of_le' hlow tendsto_const_nhds
  · refine eventually_mem_nhdsWithin.mono fun x hx => ?_
    have hxpos : (0 : ℝ) < x := hx
    have hx3 : (0 : ℝ) < x ^ 3 := pow_pos hxpos 3
    rw [le_div_iff₀ hx3]
    have hD := debye_int_ge x hxpos.le
    nlinarith [hD]
  · refine eventually_mem_nhdsWithin.mono fun x hx => ?_
    have hxpos : (0 : ℝ) < x := hx
    have hx3 : (0 : ℝ) < x ^ 3 := pow_pos hxpos 3
    rw [div_le_iff₀ hx3]
    have hD := debye_int_le x hxpos.le
    nlinarith [hD]

/-- Claim C8: in the limit theta0/T → 0 (here: theta0 → 0+ at fixed T > 0)
the Debye internal energy E(theta0, T) = 9 n R T / x^3 ∫_0^x xi^3/(e^xi -1)
tends to the classical Dulong-Petit value 3 n R T. -/
theorem claim_C8 (temp n : ℝ) (htemp : 0 < temp) :
    Filter.Tendsto (fun theta0 : ℝ => E_debye theta0 temp n)
      (nhdsWithin 0 (Set.Ioi 0)) (nhds (3 * n * Rgas * temp)) := by
  have hcomp : Filter.Tendsto (fun theta0 : ℝ => theta0 / temp)
      (nhdsWithin 0 (Set.Ioi 0)) (nhdsWithin 0 (Set.Ioi 0)) := by
    apply tendsto_nhdsWithin_of_tendsto_nhds_of_eventually_within
    · have h : Filter.Tendsto (fun theta0 : ℝ => theta0 / temp) (nhds 0)
          (nhds (0 / temp)) := (continuous_id.div_const temp).tendsto 0
      rw [zero_div] at h
      exact h.mono_left nhdsWithin_le_nhds
    · exact eventually_mem_nhdsWithin.mono fun x hx => div_pos hx htemp
  have hmain : Filter.Tendsto
      (fun x : ℝ => n * Rgas * temp * (9 * debye_int x / x ^ 3))
      (nhdsWithin 0 (Set.Ioi 0)) (nhds (n * Rgas * temp * 3)) :=
    debye_ratio_tendsto.const_mul (n * Rgas * temp)
  have hcombined := hmain.comp hcomp
  have hval : n * Rgas * temp * 3 = 3 * n * Rgas * temp := by ring
  rw [hval] at hcombined
  refine hcombined.congr fun theta0 => ?_
  show n * Rgas * temp * (9 * debye_int (theta0 / temp) / (theta0 / temp) ^ 3) =
    E_debye theta0 temp n
  unfold E_debye
  rw [if_neg htemp.ne']
  ring

/-- Witness for C8 at T = 1, n = 1. -/
theorem claim_C8_witness :
    Filter.Tendsto (fun theta0 : ℝ => E_debye theta0 1 1)
      (nhdsWithin 0 (Set.Ioi 0)) (nhds (3 * 1 * Rgas * 1)) :=
  claim_C8 1 1 (by norm_num)
